import Mathlib

/-!
Verification development for the OTB application `TensorflowModelServe`
(file `app/otbTensorflowModelServe.cxx`).  The application declares a
parameter surface (`DoInit` / `AddAnInputImage`), prepares per-source
bundles (`PrepareInputs`) and, in `DoExecute`, loads a saved model,
configures the multisource inference filter and either streams its output
through a square-tile splitter or hands it to the output sink directly.

The application file is embedded faithfully below.  The collaborators it
drives (the multisource model filter, the square tile splitter, the
streaming filter and the expression-to-tensor parser) are not part of the
embedded source; their behaviour is modelled from the design specification
and each such definition is marked `Modelled from the spec:` in its doc
comment.
-/

namespace OTBTF

/-- Parameter kinds of the OTB application wrapper used by this application. -/
inductive ParameterType
  | Group
  | InputImageList
  | Int
  | String
  | StringList
  | Directory
  | Float
  | Bool
  | OutputImage
  deriving DecidableEq

/-- One declared application parameter: its kind, key and description,
whether it is mandatory, and the numeric default / minimum values that the
declaration installs (`SetDefaultParameterInt`, `SetMinimumParameterIntValue`,
`SetDefaultParameterFloat`).  Float values are modelled as rationals. -/
structure ParamDecl where
  ptype : ParameterType
  key : String
  desc : String
  mandatory : Bool := true
  defaultInt : Option Int := none
  minInt : Option Int := none
  defaultFloat : Option ℚ := none
  deriving DecidableEq

/-- Key of a field of the parameter group of source number `n`, e.g.
`sourceKey 1 "il" = "source1.il"` (cf. the stringstream keys built in
`AddAnInputImage`). -/
def sourceKey (n : Nat) (field : String) : String :=
  "source" ++ toString n ++ "." ++ field

/-- Group key of source number `n` (`"sourceN"`). -/
def sourceGroupKey (n : Nat) : String := "source" ++ toString n

/-- The parameter keys stored in one `ProcessObjectsBundle` by
`AddAnInputImage`: input image list, patch size X, patch size Y and
placeholder name. -/
structure KeyBundle where
  keyIn : String
  keyPszX : String
  keyPszY : String
  keyPHName : String
  deriving DecidableEq

/-- The `KeyBundle` recorded for source number `n`. -/
def mkKeyBundle (n : Nat) : KeyBundle :=
  { keyIn := sourceKey n "il"
    keyPszX := sourceKey n "fovx"
    keyPszY := sourceKey n "fovy"
    keyPHName := sourceKey n "placeholder" }

/-- The five parameters declared by `AddAnInputImage` for source number `n`
(group, image list, fovx with minimum 1, fovy with minimum 1, placeholder). -/
def sourceGroupParams (n : Nat) : List ParamDecl :=
  [ { ptype := .Group, key := sourceGroupKey n
      desc := "Parameters for source #" ++ toString n }
  , { ptype := .InputImageList, key := sourceKey n "il"
      desc := "Input image (or list to stack) for source #" ++ toString n }
  , { ptype := .Int, key := sourceKey n "fovx"
      desc := "Field of view width for source #" ++ toString n
      minInt := some 1 }
  , { ptype := .Int, key := sourceKey n "fovy"
      desc := "Field of view height for source #" ++ toString n
      minInt := some 1 }
  , { ptype := .String, key := sourceKey n "placeholder"
      desc := "Name of the input placeholder for source #" ++ toString n } ]

/-- Application state mutated during `DoInit`: the declared parameter list
and the accumulated `m_Bundles`. -/
structure AppState where
  params : List ParamDecl
  bundles : List KeyBundle
  deriving DecidableEq

/-- Embedding of `TensorflowModelServe::AddAnInputImage`: the source number
is the current bundle count plus one; the five parameters of its group are
declared and a bundle holding the group keys is appended to `m_Bundles`. -/
def AddAnInputImage (s : AppState) : AppState :=
  let n := s.bundles.length + 1
  { params := s.params ++ sourceGroupParams n
    bundles := s.bundles ++ [mkKeyBundle n] }

/-- Observable events of a run.  `readEnvCount` is an evaluation of
`tf::GetNumberOfSources()` (a read of the sources environment variable);
the other constructors follow the statements of `DoInit` and `DoExecute`. -/
inductive Event
  | readEnvCount
  | addSourceGroup (n : Nat)
  | loadModel (dir : String)
  | prepareInput (i : Nat)
  | configureFilter
  | parseExpression (e : String)
  | installUserPlaceholders
  | pushBundle (i : Nat)
  | selectMode (fullyConvolutional : Bool)
  | setOutputFOE (x y : Nat)
  | updateOutputInformation
  | setupStreaming (tileSize nbDesired : Nat)
  | setOutputDirect
  | computeTile (x0 y0 sx sy : Nat)
  deriving DecidableEq

/-- The loop of `DoInit` after the unconditional first `AddAnInputImage`:
`for (int i = 1; i < tf::GetNumberOfSources(); i++) AddAnInputImage();`.
The argument is the number of remaining iterations, i.e. the value of
`(count - i).toNat` at the current check.  The loop condition re-reads the
environment count on every evaluation, so one `readEnvCount` event is
emitted per condition check, including the final failing one. -/
def doInitSourcesAux : Nat → AppState → AppState × List Event
  | 0, s => (s, [Event.readEnvCount])
  | Nat.succ k, s =>
    let rest := doInitSourcesAux k (AddAnInputImage s)
    (rest.1,
      Event.readEnvCount :: Event.addSourceGroup (s.bundles.length + 1) :: rest.2)

/-- The source-declaration part of `DoInit`: one unconditional
`AddAnInputImage` followed by the counted loop, which runs while `i < count`
starting at `i = 1`, hence `(count - 1).toNat` times. -/
def doInitSources (count : Int) : AppState × List Event :=
  let s1 := AddAnInputImage { params := [], bundles := [] }
  let rest := doInitSourcesAux (count - 1).toNat s1
  (rest.1, Event.addSourceGroup 1 :: rest.2)

/-- The fixed (non-source) parameters declared by `DoInit`, in declaration
order: the model group, the output tensors group, the fine-tuning group and
the output image. -/
def fixedParams : List ParamDecl :=
  [ { ptype := .Group, key := "model", desc := "model parameters" }
  , { ptype := .Directory, key := "model.dir"
      desc := "Tensorflow model_save directory" }
  , { ptype := .StringList, key := "model.userplaceholders"
      desc := "Additional single-valued placeholders. Supported types: int, float, bool."
      mandatory := false }
  , { ptype := .Bool, key := "model.fullyconv", desc := "Fully convolutional"
      mandatory := false }
  , { ptype := .Group, key := "output", desc := "Output tensors parameters" }
  , { ptype := .Float, key := "output.spcscale", desc := "The output spacing scale"
      defaultFloat := some 1 }
  , { ptype := .StringList, key := "output.names", desc := "Names of the output tensors" }
  , { ptype := .Int, key := "output.foex", desc := "The output field of expression (x)"
      minInt := some 1, defaultInt := some 1 }
  , { ptype := .Int, key := "output.foey", desc := "The output field of expression (y)"
      minInt := some 1, defaultInt := some 1 }
  , { ptype := .Group, key := "finetuning"
      desc := "Fine tuning performance or consistency parameters" }
  , { ptype := .Bool, key := "finetuning.disabletiling", desc := "Disable tiling"
      mandatory := false }
  , { ptype := .Int, key := "finetuning.tilesize"
      desc := "Tile width used to stream the filter output"
      minInt := some 1, defaultInt := some 16 }
  , { ptype := .OutputImage, key := "out", desc := "output image" } ]

/-- Full embedding of `TensorflowModelServe::DoInit`, given the value of the
sources environment count: the declared parameter list, the accumulated
bundles, and the event trace of the initialization. -/
def DoInit (count : Int) : AppState × List Event :=
  let src := doInitSources count
  ({ params := src.1.params ++ fixedParams, bundles := src.1.bundles }, src.2)

/-- Number of sources actually declared by `DoInit` for an environment count
`c`: one unconditional source plus one per loop iteration. -/
def numSources (c : Int) : Nat := (max 1 c).toNat

/-- Typed scalar value of a user placeholder (spec section 4.5): boolean,
float (modelled as a rational) or integer. -/
inductive TFValue
  | b (x : Bool)
  | f (x : ℚ)
  | i (x : Int)
  deriving DecidableEq

/-- Numeric value of a nonempty digit string. -/
def parseDigits (l : List Char) : Option Nat :=
  if l.isEmpty then none
  else l.foldl
    (fun acc c => acc.bind fun n =>
      if c.isDigit then some (10 * n + (c.toNat - 48)) else none)
    (some 0)

/-- Signed integer literal. -/
def parseSignedDigits (l : List Char) : Option Int :=
  match l with
  | '-' :: rest => (parseDigits rest).map (fun n => -(n : Int))
  | '+' :: rest => (parseDigits rest).map (fun n => (n : Int))
  | _ => (parseDigits l).map (fun n => (n : Int))

/-- Unsigned decimal mantissa: digits, optionally with one decimal point. -/
def parseUnsignedMantissa (l : List Char) : Option ℚ :=
  match l.splitOn '.' with
  | [ip] => (parseDigits ip).map (fun n => (n : ℚ))
  | [ip, fp] =>
    if ip.isEmpty && fp.isEmpty then none
    else
      let ipn := if ip.isEmpty then some 0 else parseDigits ip
      let fpn := if fp.isEmpty then some 0 else parseDigits fp
      match ipn, fpn with
      | some a, some bn => some ((a : ℚ) + (bn : ℚ) / (10 : ℚ) ^ fp.length)
      | _, _ => none
  | _ => none

/-- Signed decimal mantissa. -/
def parseSignedMantissa (l : List Char) : Option ℚ :=
  match l with
  | '-' :: rest => (parseUnsignedMantissa rest).map (fun q => -q)
  | '+' :: rest => parseUnsignedMantissa rest
  | _ => parseUnsignedMantissa l

/-- Decimal floating literal with optional exponent, as a rational. -/
def parseRat (s : String) : Option ℚ :=
  let l := s.toList.map (fun c => if c = 'E' then 'e' else c)
  match l.splitOn 'e' with
  | [m] => parseSignedMantissa m
  | [m, ex] =>
    (parseSignedMantissa m).bind fun mv =>
      (parseSignedDigits ex).map fun ev => mv * (10 : ℚ) ^ ev
  | _ => none

/-- Modelled from the spec: the value syntax of `tf::ExpressionToTensor`
(section 4.5; the function lives in the common Tensorflow helpers, outside
the embedded application file): `true`/`false` give a boolean, a literal
containing `.` or an exponent marker gives a float, anything else an
integer; anything unparsable is a fatal error. -/
def parseValue (s : String) : Option TFValue :=
  if s = "true" then some (.b true)
  else if s = "false" then some (.b false)
  else if s.toList.contains '.' || s.toList.contains 'e' || s.toList.contains 'E' then
    (parseRat s).map .f
  else (parseSignedDigits s.toList).map .i

/-- Modelled from the spec: `tf::ExpressionToTensor` (section 4.5) parses one
expression of the form name=value into a named typed scalar. -/
def ExpressionToTensor (e : String) : Option (String × TFValue) :=
  match e.toList.splitOn '=' with
  | [n, v] => (parseValue (String.mk v)).map (fun t => (String.mk n, t))
  | _ => none

/-- The user-placeholder parse loop of `DoExecute`: expressions are parsed
in order; a malformed expression throws before any further entry is logged.
Returns the dictionary (`none` on failure) and the parse events. -/
def parseLoop : List String → Option (List (String × TFValue)) × List Event
  | [] => (some [], [])
  | e :: rest =>
    match ExpressionToTensor e with
    | none => (none, [])
    | some d =>
      let r := parseLoop rest
      ((r.1).map (d :: ·), .parseExpression e :: r.2)

/-- The resolved parameter values of one run, as read by the `GetParameter*`
accessors; input images are opaque handles. -/
structure ParamStore where
  getInt : String → Int
  getString : String → String
  getStringList : String → List String
  getFloat : String → ℚ
  getImageList : String → List Nat

/-- One prepared source bundle (`ProcessObjectsBundle` after
`PrepareInputs`): placeholder name, patch size (as the unsigned `SizeType`)
and the image list. -/
structure SourceBundle where
  placeholder : String
  patchSizeX : Nat
  patchSizeY : Nat
  images : List Nat
  deriving DecidableEq

/-- Embedding of `TensorflowModelServe::PrepareInputs`: each bundle, in
order, reads its own stored keys from the parameter store. -/
def PrepareInputs (store : ParamStore) (bundles : List KeyBundle) :
    List SourceBundle × List Event :=
  (bundles.map fun kb =>
    { placeholder := store.getString kb.keyPHName
      patchSizeX := (store.getInt kb.keyPszX).toNat
      patchSizeY := (store.getInt kb.keyPszY).toNat
      images := store.getImageList kb.keyIn },
   (List.range bundles.length).map (.prepareInput ·))

/-- An axis-aligned rectangular pixel region (index origin and size). -/
structure Region where
  x0 : Nat
  y0 : Nat
  sx : Nat
  sy : Nat
  deriving DecidableEq

/-- Pixel membership in a region. -/
def Region.mem (r : Region) (p : Nat × Nat) : Bool :=
  decide (r.x0 ≤ p.1) && decide (p.1 < r.x0 + r.sx) &&
  decide (r.y0 ≤ p.2) && decide (p.2 < r.y0 + r.sy)

/-- Pixel area of a region. -/
def Region.area (r : Region) : Nat := r.sx * r.sy

/-- Ceiling of the integer quotient, as computed by the application's
`itk::Math::Ceil` call on an exact double ratio. -/
def ceilDiv (a t : Nat) : Nat := (a + t - 1) / t

/-- Modelled from the spec: the square tile region splitter (section 4.3;
`otb::ImageRegionSquareTileSplitter` is an external collaborator): tiles of
side `t` aligned to multiples of `t`, truncated at the image bounds, in
row-major order. -/
def splitRegion (W H t : Nat) : List Region :=
  (List.range (ceilDiv H t)).flatMap fun j =>
    (List.range (ceilDiv W t)).map fun i =>
      { x0 := i * t, y0 := j * t, sx := min t (W - i * t), sy := min t (H - j * t) }

/-- The per-window input data of one source bound to its placeholder: patch
size, image handles and the foe-window index (section 4.2 steps 2-3). -/
structure PatchBinding where
  patchSizeX : Nat
  patchSizeY : Nat
  images : List Nat
  windowX : Nat
  windowY : Nat
  deriving DecidableEq

/-- Semantics of the external model execution interface (section 6): given
the session handle, the per-source patch bindings, the constant user
placeholder bindings and one requested output tensor name, produce that
tensor's channel values at the current window. -/
def ExecuteFn : Type :=
  Nat → List (String × PatchBinding) → List (String × TFValue) → String → List ℚ

/-- Configuration of the multisource model filter, as installed by
`DoExecute` through the filter's setters. -/
structure FilterConfig where
  graph : Nat
  session : Nat
  outputTensorsNames : List String
  outputSpacingScale : ℚ
  userPlaceholders : List (String × TFValue)
  inputBundles : List SourceBundle
  fullyConvolutional : Bool
  foeX : Nat
  foeY : Nat
  deriving DecidableEq

/-- Execution mode of the filter (spec section 3), derived from the
fully-convolutional flag. -/
inductive ExecutionMode
  | PatchWise
  | FullyConvolutional
  deriving DecidableEq

/-- The mode selected by a configuration. -/
def FilterConfig.mode (c : FilterConfig) : ExecutionMode :=
  if c.fullyConvolutional then .FullyConvolutional else .PatchWise

/-- Modelled from the spec: the input bindings of the inference call that
produces the output block containing pixel `p` (section 4.2 steps 2-3): each
source's patch at the foe-window of `p` is bound to its placeholder name. -/
def inputBindingsAt (cfg : FilterConfig) (p : Nat × Nat) :
    List (String × PatchBinding) :=
  cfg.inputBundles.map fun b =>
    (b.placeholder,
     { patchSizeX := b.patchSizeX, patchSizeY := b.patchSizeY
       images := b.images
       windowX := p.1 / cfg.foeX, windowY := p.2 / cfg.foeY })

/-- Modelled from the spec: the filter's output value at pixel `p` - the
channels of every named output tensor, concatenated in the order of
`outputTensorsNames` (section 4.2 steps 4-5). Graph execution is
deterministic and stateless (section 5) and the tiled and untiled paths use
one border policy (sections 4.2, 8), so the value depends only on the
configuration, the execution semantics and the absolute pixel location. -/
def pixelValue (ex : ExecuteFn) (cfg : FilterConfig) (p : Nat × Nat) : List ℚ :=
  cfg.outputTensorsNames.flatMap fun nm =>
    ex cfg.session (inputBindingsAt cfg p) cfg.userPlaceholders nm

/-- Modelled from the spec: `computeTile` of the multisource model filter
(section 4.2 contract): a pixel buffer covering exactly the requested
region. -/
def computeTileBuf (ex : ExecuteFn) (cfg : FilterConfig) (r : Region) :
    Nat × Nat → Option (List ℚ) :=
  fun p => if r.mem p then some (pixelValue ex cfg p) else none

/-- Writing one computed tile into the output raster. -/
def writeTile (buf : Nat × Nat → Option (List ℚ)) (r : Region)
    (d : Nat × Nat → Option (List ℚ)) : Nat × Nat → Option (List ℚ) :=
  fun p => if r.mem p then d p else buf p

/-- Modelled from the spec: the streaming filter (section 4.4) computes each
tile of the splitter in row-major order and writes it into the output
sink. -/
def streamedRaster (ex : ExecuteFn) (cfg : FilterConfig) (W H t : Nat) :
    Nat × Nat → Option (List ℚ) :=
  (splitRegion W H t).foldl
    (fun buf r => writeTile buf r (computeTileBuf ex cfg r)) (fun _ => none)

/-- The loaded saved-model bundle: graph and session handles. -/
structure SavedModel where
  graph : Nat
  session : Nat
  deriving DecidableEq

/-- All external data of one run: the resolved parameter store, the model
loading collaborator, the execution semantics of the loaded session, and the
size of the filter's largest possible output region as established by
`UpdateOutputInformation` (the geometry computation is part of the external
filter). -/
structure AppInputs where
  store : ParamStore
  loadModel : String → Except String SavedModel
  execute : ExecuteFn
  outW : Nat
  outH : Nat

/-- The output pipeline chosen by `DoExecute`: either the filter's output is
handed to the sink directly, or it is routed through the streaming filter
with the given tile size and requested number of stream divisions. -/
inductive Pipeline
  | direct
  | streamed (tileSize : Nat) (nbDesired : Nat)
  deriving DecidableEq

/-- Result of a successful `DoExecute`: the installed filter configuration
and the chosen pipeline. -/
structure RunSetup where
  cfg : FilterConfig
  pipeline : Pipeline
  deriving DecidableEq

/-- Embedding of `TensorflowModelServe::DoExecute`, statement by statement:
load the model, prepare the inputs, configure the filter, parse and install
the user placeholders, push the input bundles, select the execution mode,
set the output field of expression, then either set up streaming (tile size
and `ceil(pixels / tileSize^2)` requested divisions) or hand the filter
output to the sink directly. -/
def DoExecute (a : AppInputs) (bundles : List KeyBundle) :
    Except String RunSetup × List Event :=
  let dir := a.store.getString "model.dir"
  match a.loadModel dir with
  | .error err => (.error err, [.loadModel dir])
  | .ok sm =>
    let prep := PrepareInputs a.store bundles
    let names := a.store.getStringList "output.names"
    let scale := a.store.getFloat "output.spcscale"
    let pl := parseLoop (a.store.getStringList "model.userplaceholders")
    let preTrace := .loadModel dir :: prep.2 ++ [.configureFilter] ++ pl.2
    match pl.1 with
    | none => (.error "failed to parse a user placeholder expression", preTrace)
    | some dict =>
      let fullyconv := a.store.getInt "model.fullyconv" == 1
      let foeX := (a.store.getInt "output.foex").toNat
      let foeY := (a.store.getInt "output.foey").toNat
      let cfg : FilterConfig :=
        { graph := sm.graph, session := sm.session
          outputTensorsNames := names, outputSpacingScale := scale
          userPlaceholders := dict, inputBundles := prep.1
          fullyConvolutional := fullyconv, foeX := foeX, foeY := foeY }
      let trace2 := preTrace ++ [.installUserPlaceholders]
        ++ (List.range prep.1.length).map (.pushBundle ·)
        ++ [.selectMode fullyconv, .setOutputFOE foeX foeY]
      if a.store.getInt "finetuning.disabletiling" != 1 then
        let t := (a.store.getInt "finetuning.tilesize").toNat
        let nbDesired := ceilDiv (a.outW * a.outH) (t * t)
        (.ok { cfg := cfg, pipeline := .streamed t nbDesired },
         trace2 ++ [.updateOutputInformation, .setupStreaming t nbDesired])
      else
        (.ok { cfg := cfg, pipeline := .direct }, trace2 ++ [.setOutputDirect])

/-- The full output region of the run. -/
def fullRegion (a : AppInputs) : Region :=
  { x0 := 0, y0 := 0, sx := a.outW, sy := a.outH }

/-- The trace event of one `computeTile` call. -/
def tileEvent (r : Region) : Event := .computeTile r.x0 r.y0 r.sx r.sy

/-- The tile-computation events appended by the framework's update of the
chosen pipeline. -/
def tileChunk (a : AppInputs) (s : RunSetup) : List Event :=
  match s.pipeline with
  | .direct => [tileEvent (fullRegion a)]
  | .streamed t _ => (splitRegion a.outW a.outH t).map tileEvent

/-- The complete run: `DoExecute`, then the framework's write of the `out`
parameter, which updates the installed pipeline.  With tiling, the streaming
filter computes one tile per split region; without, the whole largest
possible region is computed in a single call.  Returns the final raster
(`none` when the run aborted) and the complete event trace. -/
def runApp (a : AppInputs) (bundles : List KeyBundle) :
    Option (Nat × Nat → Option (List ℚ)) × List Event :=
  let d := DoExecute a bundles
  match d.1 with
  | .error _ => (none, d.2)
  | .ok s =>
    match s.pipeline with
    | .direct =>
      (some (computeTileBuf a.execute s.cfg (fullRegion a)),
       d.2 ++ [tileEvent (fullRegion a)])
    | .streamed t _ =>
      (some (streamedRaster a.execute s.cfg a.outW a.outH t),
       d.2 ++ (splitRegion a.outW a.outH t).map tileEvent)

/-- The filter configuration that a successful `DoExecute` installs, given
the loaded model and the parsed placeholder dictionary. -/
def mkCfg (a : AppInputs) (sm : SavedModel) (dict : List (String × TFValue))
    (bundles : List KeyBundle) : FilterConfig :=
  { graph := sm.graph, session := sm.session
    outputTensorsNames := a.store.getStringList "output.names"
    outputSpacingScale := a.store.getFloat "output.spcscale"
    userPlaceholders := dict
    inputBundles := (PrepareInputs a.store bundles).1
    fullyConvolutional := a.store.getInt "model.fullyconv" == 1
    foeX := (a.store.getInt "output.foex").toNat
    foeY := (a.store.getInt "output.foey").toNat }

/-- The tile size used by the streaming branch. -/
def tilesizeOf (a : AppInputs) : Nat :=
  (a.store.getInt "finetuning.tilesize").toNat

/-- Recognizer for `computeTile` events. -/
def isTileEvent : Event → Bool
  | .computeTile _ _ _ _ => true
  | _ => false

/-- Recognizer for mode-selection events. -/
def isSelectEvent : Event → Bool
  | .selectMode _ => true
  | _ => false

/-- Recognizer for user-placeholder parse events. -/
def isParseEvent : Event → Bool
  | .parseExpression _ => true
  | _ => false

/-- Every event satisfying `P` occurs strictly before every event satisfying
`Q` in the list: the list splits into a `Q`-free prefix and a `P`-free
suffix. -/
def EventsPrecede (P Q : Event → Bool) (l : List Event) : Prop :=
  ∃ l₁ l₂, l = l₁ ++ l₂ ∧ (∀ e ∈ l₁, Q e = false) ∧ (∀ e ∈ l₂, P e = false)

/-- A concrete parameter store used to instantiate the theorems: one source
with patch size 16x16, two output tensors, unit scale and foe, tile size 2,
tiling enabled. -/
def storeW : ParamStore :=
  { getInt := fun k =>
      if k = "model.fullyconv" then 0
      else if k = "output.foex" then 1
      else if k = "output.foey" then 1
      else if k = "finetuning.disabletiling" then 0
      else if k = "finetuning.tilesize" then 2
      else 16
    getString := fun k => if k = "model.dir" then "/tmp/model" else "x1"
    getStringList := fun k =>
      if k = "output.names" then ["out_predict1", "out_proba1"]
      else ["is_training=false", "seed=42"]
    getFloat := fun _ => 1
    getImageList := fun _ => [7] }

/-- A loading collaborator that succeeds with graph handle 1 and session
handle 2. -/
def loadW : String → Except String SavedModel :=
  fun _ => .ok { graph := 1, session := 2 }

/-- A concrete execution semantics: one channel for the first output tensor,
two for any other. -/
def execW : ExecuteFn :=
  fun _ _ _ nm => if nm = "out_predict1" then [1] else [2, 3]

/-- Concrete application inputs over a 4x4 output region. -/
def appW : AppInputs :=
  { store := storeW, loadModel := loadW, execute := execW, outW := 4, outH := 4 }

/-- Concrete inputs whose parameter store disables tiling. -/
def appWDisable : AppInputs :=
  { appW with store :=
      { storeW with getInt := fun k =>
          if k = "finetuning.disabletiling" then 1 else storeW.getInt k } }

/-- Concrete inputs whose model loading fails. -/
def appWFail : AppInputs :=
  { appW with loadModel := fun _ => .error "model directory missing" }

/-- The bundles declared by `DoInit` for one source. -/
def bundlesW : List KeyBundle := (DoInit 1).1.bundles

/-- The dictionary parsed from the concrete store's placeholder
expressions. -/
def dictW : List (String × TFValue) :=
  [("is_training", TFValue.b false), ("seed", TFValue.i 42)]

/-- Concrete inputs with tile size 3 over the 4x4 output region. -/
def appW3 : AppInputs :=
  { appW with store :=
      { storeW with getInt := fun k =>
          if k = "finetuning.tilesize" then 3 else storeW.getInt k } }

/-- Overriding the value of the disable-tiling flag in a parameter store. -/
def setDisable (st : ParamStore) (v : Int) : ParamStore :=
  { st with getInt := fun k =>
      if k = "finetuning.disabletiling" then v else st.getInt k }

/-! Closed forms for the `DoInit` source loop. -/

theorem doInitSourcesAux_bundles (k : Nat) (s : AppState) :
    (doInitSourcesAux k s).1.bundles =
      s.bundles ++ (List.range k).map
        (fun j => mkKeyBundle (s.bundles.length + 1 + j)) := by
  induction k generalizing s with
  | zero => simp [doInitSourcesAux]
  | succ k ih =>
    rw [doInitSourcesAux]
    simp only
    rw [ih, List.range_succ_eq_map]
    simp only [AddAnInputImage, List.length_append, List.length_cons, List.length_nil,
      List.map_cons, List.map_map, List.append_assoc, List.cons_append, List.nil_append,
      Nat.add_zero]
    congr 1
    congr 1
    apply List.map_congr_left
    intro x _
    simp only [Function.comp_apply, Nat.succ_eq_add_one]
    congr 1
    omega

theorem doInitSourcesAux_params (k : Nat) (s : AppState) :
    (doInitSourcesAux k s).1.params =
      s.params ++ (List.range k).flatMap
        (fun j => sourceGroupParams (s.bundles.length + 1 + j)) := by
  induction k generalizing s with
  | zero => simp [doInitSourcesAux]
  | succ k ih =>
    rw [doInitSourcesAux]
    simp only
    rw [ih, List.range_succ_eq_map]
    simp only [AddAnInputImage, List.length_append, List.length_cons, List.length_nil,
      List.flatMap_cons, List.flatMap_map, List.append_assoc, Nat.add_zero]
    congr 1
    congr 1
    apply List.flatMap_congr
    intro x _
    congr 1
    omega

theorem doInitSourcesAux_readCount (k : Nat) (s : AppState) :
    ((doInitSourcesAux k s).2.count Event.readEnvCount) = k + 1 := by
  induction k generalizing s with
  | zero => simp [doInitSourcesAux, List.count_cons]
  | succ k ih =>
    rw [doInitSourcesAux]
    simp only [List.count_cons, beq_iff_eq, reduceCtorEq, if_false, if_true, ih]

theorem numSources_eq (c : Int) : numSources c = (c - 1).toNat + 1 := by
  unfold numSources
  omega

theorem DoInit_bundles (c : Int) :
    (DoInit c).1.bundles =
      (List.range (numSources c)).map (fun j => mkKeyBundle (j + 1)) := by
  unfold DoInit doInitSources
  simp only
  rw [doInitSourcesAux_bundles, numSources_eq, List.range_succ_eq_map]
  simp only [AddAnInputImage, List.length_nil, List.nil_append, List.length_cons,
    List.map_cons, List.map_map, Nat.zero_add, List.cons_append, List.singleton_append]
  congr 1
  apply List.map_congr_left
  intro x _
  simp only [Function.comp_apply, Nat.succ_eq_add_one]
  congr 1
  omega

theorem DoInit_params (c : Int) :
    (DoInit c).1.params =
      ((List.range (numSources c)).flatMap (fun j => sourceGroupParams (j + 1)))
        ++ fixedParams := by
  unfold DoInit doInitSources
  simp only
  rw [doInitSourcesAux_params, numSources_eq, List.range_succ_eq_map]
  simp only [AddAnInputImage, List.length_nil, List.nil_append, List.length_cons,
    List.flatMap_cons, List.flatMap_map, Nat.zero_add, List.append_assoc]
  congr 2
  apply List.flatMap_congr
  intro x _
  congr 1
  omega

theorem DoInit_readCount (c : Int) :
    ((DoInit c).2.count Event.readEnvCount) = numSources c := by
  unfold DoInit doInitSources
  simp only [List.count_cons, beq_iff_eq, reduceCtorEq, if_false]
  rw [doInitSourcesAux_readCount, numSources_eq]

theorem DoInit_numBundles (c : Int) :
    (DoInit c).1.bundles.length = numSources c := by
  rw [DoInit_bundles]
  simp

/-! Disambiguation of parameter keys: every key built by `AddAnInputImage`
starts with the letter s, while the fixed keys queried by the claims start
with o or f. -/

theorem sourceKey_head (n : Nat) (f : String) :
    (sourceKey n f).data.head? = some 's' := by
  unfold sourceKey
  rw [String.data_append, String.data_append, String.data_append]
  rfl

theorem sourceGroupKey_head (n : Nat) :
    (sourceGroupKey n).data.head? = some 's' := by
  unfold sourceGroupKey
  rw [String.data_append]
  rfl

theorem sourceGroupParams_key_head (n : Nat) (p : ParamDecl)
    (hp : p ∈ sourceGroupParams n) : p.key.data.head? = some 's' := by
  simp only [sourceGroupParams, List.mem_cons, List.not_mem_nil, or_false] at hp
  rcases hp with h | h | h | h | h <;> subst h
  · exact sourceGroupKey_head n
  all_goals exact sourceKey_head n _

theorem sourceGroupParams_int_min (n : Nat) (p : ParamDecl)
    (hp : p ∈ sourceGroupParams n) (hi : p.ptype = .Int) : p.minInt = some 1 := by
  simp only [sourceGroupParams, List.mem_cons, List.not_mem_nil, or_false] at hp
  rcases hp with h | h | h | h | h <;> subst h <;> first | rfl | exact absurd hi (by simp)

theorem sourceGroupParams_not_float (n : Nat) (p : ParamDecl)
    (hp : p ∈ sourceGroupParams n) : p.ptype ≠ .Float := by
  simp only [sourceGroupParams, List.mem_cons, List.not_mem_nil, or_false] at hp
  rcases hp with h | h | h | h | h <;> subst h <;> simp

theorem fixedParams_int_min :
    ∀ p ∈ fixedParams, p.ptype = .Int → p.minInt = some 1 := by decide

theorem fixedParams_float_unique :
    ∀ p ∈ fixedParams, p.ptype = .Float →
      p.key = "output.spcscale" ∧ p.defaultFloat = some 1 := by decide

theorem fixedParams_foex :
    ∀ p ∈ fixedParams, p.key = "output.foex" →
      p.ptype = .Int ∧ p.defaultInt = some 1 ∧ p.minInt = some 1 := by decide

theorem fixedParams_foey :
    ∀ p ∈ fixedParams, p.key = "output.foey" →
      p.ptype = .Int ∧ p.defaultInt = some 1 ∧ p.minInt = some 1 := by decide

theorem fixedParams_tilesize :
    ∀ p ∈ fixedParams, p.key = "finetuning.tilesize" →
      p.ptype = .Int ∧ p.defaultInt = some 16 ∧ p.minInt = some 1 := by decide

theorem fixedParams_spcscale :
    ∀ p ∈ fixedParams, p.key = "output.spcscale" →
      p.ptype = .Float ∧ p.defaultFloat = some 1 := by decide

/-- Every parameter of `DoInit` is either from a source group (key starting
with s) or one of the fixed parameters. -/
theorem DoInit_param_cases (c : Int) (p : ParamDecl)
    (hp : p ∈ (DoInit c).1.params) :
    (∃ n, p ∈ sourceGroupParams n) ∨ p ∈ fixedParams := by
  rw [DoInit_params] at hp
  rcases List.mem_append.mp hp with h | h
  · obtain ⟨j, _, hj⟩ := List.mem_flatMap.mp h
    exact Or.inl ⟨j + 1, hj⟩
  · exact Or.inr h

/-! Reduction lemmas for the execution path. -/

theorem parseLoop_fst (l : List String) :
    (parseLoop l).1 = l.mapM ExpressionToTensor := by
  induction l with
  | nil => rfl
  | cons e rest ih =>
    simp only [parseLoop, List.mapM_cons]
    cases h : ExpressionToTensor e <;> simp [h, ih, Option.map_eq_bind]

theorem parseLoop_events (l : List String) :
    ∀ e ∈ (parseLoop l).2, isParseEvent e = true := by
  induction l with
  | nil => simp [parseLoop]
  | cons e rest ih =>
    cases h : ExpressionToTensor e with
    | none => simp [parseLoop, h]
    | some d =>
      simp only [parseLoop, h]
      intro x hx
      rcases List.mem_cons.mp hx with h1 | h1
      · subst h1; rfl
      · exact ih x h1

theorem DoExecute_ok (a : AppInputs) (b : List KeyBundle) (sm : SavedModel)
    (dict : List (String × TFValue))
    (hload : a.loadModel (a.store.getString "model.dir") = .ok sm)
    (hparse : (a.store.getStringList "model.userplaceholders").mapM ExpressionToTensor
        = some dict) :
    (DoExecute a b).1 = .ok
      { cfg := mkCfg a sm dict b
        pipeline :=
          if a.store.getInt "finetuning.disabletiling" != 1 then
            .streamed (tilesizeOf a)
              (ceilDiv (a.outW * a.outH) (tilesizeOf a * tilesizeOf a))
          else .direct } := by
  have hp : (parseLoop (a.store.getStringList "model.userplaceholders")).1 = some dict := by
    rw [parseLoop_fst]; exact hparse
  simp only [DoExecute, hload, hp, mkCfg, tilesizeOf]
  split <;> rfl

theorem DoExecute_trace_ok (a : AppInputs) (b : List KeyBundle) (sm : SavedModel)
    (dict : List (String × TFValue))
    (hload : a.loadModel (a.store.getString "model.dir") = .ok sm)
    (hparse : (a.store.getStringList "model.userplaceholders").mapM ExpressionToTensor
        = some dict) :
    (DoExecute a b).2 =
      .loadModel (a.store.getString "model.dir") ::
        ((PrepareInputs a.store b).2 ++
          ([Event.configureFilter] ++
            ((parseLoop (a.store.getStringList "model.userplaceholders")).2 ++
              ([Event.installUserPlaceholders] ++
                ((List.range (PrepareInputs a.store b).1.length).map (Event.pushBundle ·) ++
                  ([Event.selectMode (a.store.getInt "model.fullyconv" == 1),
                    Event.setOutputFOE (a.store.getInt "output.foex").toNat
                      (a.store.getInt "output.foey").toNat] ++
                    (if a.store.getInt "finetuning.disabletiling" != 1 then
                      [Event.updateOutputInformation,
                       Event.setupStreaming (tilesizeOf a)
                         (ceilDiv (a.outW * a.outH) (tilesizeOf a * tilesizeOf a))]
                     else [Event.setOutputDirect]))))))) := by
  have hp : (parseLoop (a.store.getStringList "model.userplaceholders")).1 = some dict := by
    rw [parseLoop_fst]; exact hparse
  simp only [DoExecute, hload, hp, tilesizeOf]
  split <;> simp [List.append_assoc, List.cons_append]

theorem DoExecute_load_error (a : AppInputs) (b : List KeyBundle) (err : String)
    (hload : a.loadModel (a.store.getString "model.dir") = .error err) :
    DoExecute a b = (.error err, [.loadModel (a.store.getString "model.dir")]) := by
  simp [DoExecute, hload]

theorem runApp_load_error (a : AppInputs) (b : List KeyBundle) (err : String)
    (hload : a.loadModel (a.store.getString "model.dir") = .error err) :
    runApp a b = (none, [.loadModel (a.store.getString "model.dir")]) := by
  simp [runApp, DoExecute_load_error a b err hload]

theorem runApp_streamed (a : AppInputs) (b : List KeyBundle) (sm : SavedModel)
    (dict : List (String × TFValue))
    (hload : a.loadModel (a.store.getString "model.dir") = .ok sm)
    (hparse : (a.store.getStringList "model.userplaceholders").mapM ExpressionToTensor
        = some dict)
    (hdis : a.store.getInt "finetuning.disabletiling" ≠ 1) :
    runApp a b =
      (some (streamedRaster a.execute (mkCfg a sm dict b) a.outW a.outH (tilesizeOf a)),
       (DoExecute a b).2 ++ (splitRegion a.outW a.outH (tilesizeOf a)).map tileEvent) := by
  have hok := DoExecute_ok a b sm dict hload hparse
  have hb : (a.store.getInt "finetuning.disabletiling" != 1) = true := by
    simpa using hdis
  rw [hb] at hok
  simp only [if_true] at hok
  simp [runApp, hok]

theorem runApp_direct (a : AppInputs) (b : List KeyBundle) (sm : SavedModel)
    (dict : List (String × TFValue))
    (hload : a.loadModel (a.store.getString "model.dir") = .ok sm)
    (hparse : (a.store.getStringList "model.userplaceholders").mapM ExpressionToTensor
        = some dict)
    (hdis : a.store.getInt "finetuning.disabletiling" = 1) :
    runApp a b =
      (some (computeTileBuf a.execute (mkCfg a sm dict b) (fullRegion a)),
       (DoExecute a b).2 ++ [tileEvent (fullRegion a)]) := by
  have hok := DoExecute_ok a b sm dict hload hparse
  have hb : (a.store.getInt "finetuning.disabletiling" != 1) = false := by
    simp [hdis]
  rw [hb] at hok
  simp only [if_false, Bool.false_eq_true] at hok
  simp [runApp, hok]

/-! Properties of the square tile splitter and of streamed assembly. -/

theorem mem_splitRegion (W H t : Nat) (r : Region) :
    r ∈ splitRegion W H t ↔
      ∃ j, j < ceilDiv H t ∧ ∃ i, i < ceilDiv W t ∧
        r = { x0 := i * t, y0 := j * t
              sx := min t (W - i * t), sy := min t (H - j * t) } := by
  simp only [splitRegion, List.mem_flatMap, List.mem_map, List.mem_range]
  constructor
  · rintro ⟨j, hj, i, hi, rfl⟩
    exact ⟨j, hj, i, hi, rfl⟩
  · rintro ⟨j, hj, i, hi, rfl⟩
    exact ⟨j, hj, i, hi, rfl⟩

theorem splitRegion_area (W H t : Nat) (r : Region)
    (hr : r ∈ splitRegion W H t) : r.area ≤ t * t := by
  rw [mem_splitRegion] at hr
  obtain ⟨j, _, i, _, rfl⟩ := hr
  exact Nat.mul_le_mul (Nat.min_le_left _ _) (Nat.min_le_left _ _)

theorem splitRegion_subset (W H t : Nat) (r : Region)
    (hr : r ∈ splitRegion W H t) (p : Nat × Nat) (hp : r.mem p = true) :
    p.1 < W ∧ p.2 < H := by
  rw [mem_splitRegion] at hr
  obtain ⟨j, _, i, _, rfl⟩ := hr
  simp only [Region.mem, Bool.and_eq_true, decide_eq_true_eq] at hp
  obtain ⟨⟨⟨h1, h2⟩, h3⟩, h4⟩ := hp
  have hx1 : min t (W - i * t) ≤ W - i * t := Nat.min_le_right _ _
  have hy1 : min t (H - j * t) ≤ H - j * t := Nat.min_le_right _ _
  constructor <;> [skip; skip]
  · generalize hA : i * t = A at *
    omega
  · generalize hB : j * t = B at *
    omega

theorem splitRegion_covers (W H t : Nat) (ht : 1 ≤ t) (p : Nat × Nat)
    (hx : p.1 < W) (hy : p.2 < H) :
    ∃ r ∈ splitRegion W H t, r.mem p = true := by
  have htpos : 0 < t := ht
  refine ⟨{ x0 := (p.1 / t) * t, y0 := (p.2 / t) * t
            sx := min t (W - (p.1 / t) * t), sy := min t (H - (p.2 / t) * t) },
          ?_, ?_⟩
  · rw [mem_splitRegion]
    refine ⟨p.2 / t, ?_, p.1 / t, ?_, rfl⟩
    · unfold ceilDiv
      rw [Nat.lt_iff_add_one_le, Nat.le_div_iff_mul_le htpos, Nat.add_one_mul]
      have h1 : p.2 / t * t ≤ p.2 := Nat.div_mul_le_self _ _
      have h0 : H + t - 1 + 1 = H + t := by omega
      linarith [h1, h0, hy]
    · unfold ceilDiv
      rw [Nat.lt_iff_add_one_le, Nat.le_div_iff_mul_le htpos, Nat.add_one_mul]
      have h1 : p.1 / t * t ≤ p.1 := Nat.div_mul_le_self _ _
      have h0 : W + t - 1 + 1 = W + t := by omega
      linarith [h1, h0, hx]
  · have hx1 : p.1 / t * t ≤ p.1 := Nat.div_mul_le_self _ _
    have hy1 : p.2 / t * t ≤ p.2 := Nat.div_mul_le_self _ _
    have hx2 : p.1 < (p.1 / t + 1) * t := by
      rw [← Nat.div_lt_iff_lt_mul htpos]
      omega
    have hy2 : p.2 < (p.2 / t + 1) * t := by
      rw [← Nat.div_lt_iff_lt_mul htpos]
      omega
    rw [Nat.add_one_mul] at hx2 hy2
    simp only [Region.mem, Bool.and_eq_true, decide_eq_true_eq]
    refine ⟨⟨⟨hx1, ?_⟩, hy1⟩, ?_⟩
    · generalize hA : p.1 / t * t = A at *
      omega
    · generalize hB : p.2 / t * t = B at *
      omega

theorem foldl_writeTile (ex : ExecuteFn) (cfg : FilterConfig)
    (tiles : List Region) (acc : Nat × Nat → Option (List ℚ)) (p : Nat × Nat) :
    (tiles.foldl (fun buf r => writeTile buf r (computeTileBuf ex cfg r)) acc) p =
      if tiles.any (fun r => r.mem p) then some (pixelValue ex cfg p) else acc p := by
  induction tiles generalizing acc with
  | nil => simp
  | cons r rest ih =>
    simp only [List.foldl_cons, List.any_cons]
    rw [ih]
    by_cases h1 : rest.any (fun r => r.mem p)
    · simp [h1]
    · simp only [h1, Bool.or_false, if_false, Bool.false_eq_true]
      by_cases h2 : r.mem p = true <;>
        simp [h2, writeTile, computeTileBuf]

/-- Streamed assembly over the square tiles reproduces exactly the single
whole-region call. -/
theorem streamedRaster_eq_whole (ex : ExecuteFn) (cfg : FilterConfig)
    (W H t : Nat) (ht : 1 ≤ t) :
    streamedRaster ex cfg W H t =
      computeTileBuf ex cfg { x0 := 0, y0 := 0, sx := W, sy := H } := by
  funext p
  rw [streamedRaster, foldl_writeTile]
  have hmem : ({ x0 := 0, y0 := 0, sx := W, sy := H } : Region).mem p = true ↔
      p.1 < W ∧ p.2 < H := by
    simp [Region.mem]
  by_cases hin : p.1 < W ∧ p.2 < H
  · obtain ⟨r, hr, hrp⟩ := splitRegion_covers W H t ht p hin.1 hin.2
    have hany : (splitRegion W H t).any (fun r => r.mem p) = true :=
      List.any_eq_true.mpr ⟨r, hr, hrp⟩
    rw [hany, computeTileBuf]
    rw [if_pos rfl, if_pos (hmem.mpr hin)]
  · have hany : (splitRegion W H t).any (fun r => r.mem p) = false := by
      rw [Bool.eq_false_iff]
      intro hc
      obtain ⟨r, hr, hrp⟩ := List.any_eq_true.mp hc
      exact hin (splitRegion_subset W H t r hr p hrp)
    rw [hany, computeTileBuf]
    rw [if_neg (by simp), if_neg (fun hc => hin (hmem.mp hc))]

theorem splitRegion_length (W H t : Nat) :
    (splitRegion W H t).length = ceilDiv W t * ceilDiv H t := by
  simp only [splitRegion, List.length_flatMap, List.map_map]
  have h1 : ∀ j : Nat,
      (List.length ∘ fun j : Nat => (List.range (ceilDiv W t)).map
        (fun i => ({ x0 := i * t, y0 := j * t
                     sx := min t (W - i * t), sy := min t (H - j * t) } : Region))) j
      = ceilDiv W t := by
    intro j
    simp
  rw [List.map_congr_left (fun j _ => h1 j)]
  have h2 : (List.range (ceilDiv H t)).map (fun _ : Nat => ceilDiv W t)
      = List.replicate (ceilDiv H t) (ceilDiv W t) := by
    simp [List.map_const']
  rw [h2, List.sum_replicate, smul_eq_mul, Nat.mul_comm]

theorem le_ceilDiv_mul (W t : Nat) (ht : 1 ≤ t) : W ≤ ceilDiv W t * t := by
  unfold ceilDiv
  have h1 := Nat.div_add_mod (W + t - 1) t
  have h2 : (W + t - 1) % t < t := Nat.mod_lt _ (by omega)
  have h0 : W + t - 1 + 1 = W + t := by omega
  rw [Nat.mul_comm]
  linarith [h1, h2, h0]

/-- The requested number of stream divisions is a lower bound on the number
of tiles the splitter produces. -/
theorem ceilDiv_pixels_le_tiles (W H t : Nat) (ht : 1 ≤ t) :
    ceilDiv (W * H) (t * t) ≤ (splitRegion W H t).length := by
  rw [splitRegion_length]
  have htt : 0 < t * t := Nat.mul_pos ht ht
  have hW := le_ceilDiv_mul W t ht
  have hH := le_ceilDiv_mul H t ht
  set cW := ceilDiv W t with hcW
  set cH := ceilDiv H t with hcH
  unfold ceilDiv
  rw [Nat.div_le_iff_le_mul_add_pred htt]
  have h3 : W * H ≤ cW * t * (cH * t) := Nat.mul_le_mul hW hH
  have h4 : cW * t * (cH * t) = t * t * (cW * cH) := by ring
  have hB : W * H + t * t - 1 + 1 = W * H + t * t := by omega
  have hC : t * t - 1 + 1 = t * t := by omega
  linarith [h3, h4, hB, hC]

/-! Generic inversion and trace facts about `DoExecute`. -/

theorem flatMap_slice {α β : Type} (l : List α) (f : α → List β) (k : Nat)
    (h : k < l.length) :
    ((l.flatMap f).drop (((l.take k).map fun a => (f a).length).sum)).take
        (f (l.get ⟨k, h⟩)).length = f (l.get ⟨k, h⟩) := by
  induction l generalizing k with
  | nil => simp at h
  | cons a rest ih =>
    cases k with
    | zero =>
      simp only [List.flatMap_cons, List.take_zero, List.map_nil, List.sum_nil,
        List.drop_zero, List.get]
      exact List.take_left _ _
    | succ k2 =>
      have h2 : k2 < rest.length := by simpa using h
      simp only [List.flatMap_cons, List.take_succ_cons, List.map_cons, List.sum_cons,
        List.get]
      rw [List.drop_append]
      exact ih k2 h2

theorem DoExecute_ok_inv (a : AppInputs) (b : List KeyBundle) (s : RunSetup)
    (h : (DoExecute a b).1 = .ok s) :
    s.cfg.inputBundles = (PrepareInputs a.store b).1 ∧
    s.cfg.outputTensorsNames = a.store.getStringList "output.names" ∧
    s.cfg.fullyConvolutional = (a.store.getInt "model.fullyconv" == 1) ∧
    s.cfg.foeX = (a.store.getInt "output.foex").toNat ∧
    s.cfg.foeY = (a.store.getInt "output.foey").toNat ∧
    ∃ dict, (a.store.getStringList "model.userplaceholders").mapM ExpressionToTensor
        = some dict ∧ s.cfg.userPlaceholders = dict := by
  cases hl : a.loadModel (a.store.getString "model.dir") with
  | error err =>
    rw [DoExecute_load_error a b err hl] at h
    exact absurd h (by simp)
  | ok sm =>
    cases hp : (parseLoop (a.store.getStringList "model.userplaceholders")).1 with
    | none =>
      have hpe : (DoExecute a b).1 = .error "failed to parse a user placeholder expression" := by
        simp only [DoExecute, hl, hp]
      rw [hpe] at h
      exact absurd h (by simp)
    | some dict =>
      have hmap : (a.store.getStringList "model.userplaceholders").mapM ExpressionToTensor
          = some dict := by
        rw [← parseLoop_fst]; exact hp
      have hok := DoExecute_ok a b sm dict hl hmap
      rw [hok] at h
      simp only [Except.ok.injEq] at h
      subst h
      exact ⟨rfl, rfl, rfl, rfl, rfl, dict, hmap, rfl⟩

theorem DoExecute_trace_parse_error (a : AppInputs) (b : List KeyBundle)
    (sm : SavedModel)
    (hl : a.loadModel (a.store.getString "model.dir") = .ok sm)
    (hp : (parseLoop (a.store.getStringList "model.userplaceholders")).1 = none) :
    (DoExecute a b).2 =
      .loadModel (a.store.getString "model.dir") ::
        ((PrepareInputs a.store b).2 ++
          ([Event.configureFilter] ++
            (parseLoop (a.store.getStringList "model.userplaceholders")).2)) := by
  simp only [DoExecute, hl, hp]
  simp [List.append_assoc, List.cons_append]

theorem DoExecute_head (a : AppInputs) (b : List KeyBundle) :
    (DoExecute a b).2.head? = some (.loadModel (a.store.getString "model.dir")) := by
  cases hl : a.loadModel (a.store.getString "model.dir") with
  | error err =>
    rw [DoExecute_load_error a b err hl]
    rfl
  | ok sm =>
    cases hp : (parseLoop (a.store.getStringList "model.userplaceholders")).1 with
    | none =>
      rw [DoExecute_trace_parse_error a b sm hl hp]
      rfl
    | some dict =>
      rw [DoExecute_trace_ok a b sm dict hl (by rw [← parseLoop_fst]; exact hp)]
      rfl

theorem DoExecute_trace_basic (a : AppInputs) (b : List KeyBundle) :
    ∀ e ∈ (DoExecute a b).2, isTileEvent e = false ∧ e ≠ .readEnvCount := by
  have hprep : ∀ e ∈ (PrepareInputs a.store b).2,
      isTileEvent e = false ∧ e ≠ Event.readEnvCount := by
    intro e he
    simp only [PrepareInputs, List.mem_map, List.mem_range] at he
    obtain ⟨i, _, rfl⟩ := he
    exact ⟨rfl, by simp⟩
  have hpl : ∀ e ∈ (parseLoop (a.store.getStringList "model.userplaceholders")).2,
      isTileEvent e = false ∧ e ≠ Event.readEnvCount := by
    intro e he
    have := parseLoop_events _ e he
    cases e <;> simp_all [isParseEvent, isTileEvent]
  intro e he
  cases hl : a.loadModel (a.store.getString "model.dir") with
  | error err =>
    rw [DoExecute_load_error a b err hl] at he
    simp only [List.mem_singleton] at he
    subst he
    exact ⟨rfl, by simp⟩
  | ok sm =>
    cases hp : (parseLoop (a.store.getStringList "model.userplaceholders")).1 with
    | none =>
      rw [DoExecute_trace_parse_error a b sm hl hp] at he
      rcases List.mem_cons.mp he with rfl | he
      · exact ⟨rfl, by simp⟩
      rcases List.mem_append.mp he with he | he
      · exact hprep e he
      rcases List.mem_append.mp he with he | he
      · simp only [List.mem_singleton] at he
        subst he
        exact ⟨rfl, by simp⟩
      · exact hpl e he
    | some dict =>
      rw [DoExecute_trace_ok a b sm dict hl (by rw [← parseLoop_fst]; exact hp)] at he
      rcases List.mem_cons.mp he with rfl | he
      · exact ⟨rfl, by simp⟩
      rcases List.mem_append.mp he with he | he
      · exact hprep e he
      rcases List.mem_append.mp he with he | he
      · simp only [List.mem_singleton] at he
        subst he
        exact ⟨rfl, by simp⟩
      rcases List.mem_append.mp he with he | he
      · exact hpl e he
      rcases List.mem_append.mp he with he | he
      · simp only [List.mem_singleton] at he
        subst he
        exact ⟨rfl, by simp⟩
      rcases List.mem_append.mp he with he | he
      · simp only [List.mem_map, List.mem_range] at he
        obtain ⟨i, _, rfl⟩ := he
        exact ⟨rfl, by simp⟩
      rcases List.mem_append.mp he with he | he
      · rcases List.mem_cons.mp he with rfl | he
        · exact ⟨rfl, by simp⟩
        simp only [List.mem_singleton] at he
        subst he
        exact ⟨rfl, by simp⟩
      · revert he
        split <;>
        · intro he
          simp only [List.mem_cons, List.not_mem_nil, or_false] at he
          (rcases he with rfl | rfl) <;> exact ⟨rfl, by simp⟩

/-! Remaining supporting lemmas for the claim theorems. -/

theorem sourceKey_ne (n : Nat) (f t : String) (h : t.data.head? ≠ some 's') :
    sourceKey n f ≠ t :=
  fun he => h (he ▸ sourceKey_head n f)

theorem runApp_ok_trace (a : AppInputs) (b : List KeyBundle) (s : RunSetup)
    (h : (DoExecute a b).1 = .ok s) :
    (runApp a b).2 = (DoExecute a b).2 ++ tileChunk a s := by
  cases hp : s.pipeline <;> simp [runApp, tileChunk, h, hp]

theorem tile_chunk_isTile (a : AppInputs) (s : RunSetup) (e : Event)
    (he : e ∈ tileChunk a s) : isTileEvent e = true := by
  unfold tileChunk at he
  cases hp : s.pipeline <;> rw [hp] at he
  · simp only [List.mem_singleton] at he
    subst he
    rfl
  · simp only [List.mem_map] at he
    obtain ⟨r, _, rfl⟩ := he
    rfl

theorem countP_eq_zero_of (l : List Event) (p : Event → Bool)
    (h : ∀ e ∈ l, p e = false) : l.countP p = 0 := by
  rw [List.countP_eq_zero]
  intro e he
  simp [h e he]

theorem tileChunk_countP_zero (a : AppInputs) (s : RunSetup) (p : Event → Bool)
    (hp : ∀ x0 y0 sx sy, p (.computeTile x0 y0 sx sy) = false) :
    (tileChunk a s).countP p = 0 := by
  apply countP_eq_zero_of
  intro e he
  have := tile_chunk_isTile a s e he
  cases e <;> simp_all [isTileEvent, hp]

theorem prep_events_shape (st : ParamStore) (b : List KeyBundle) :
    ∀ e ∈ (PrepareInputs st b).2, ∃ i, e = Event.prepareInput i := by
  intro e he
  simp only [PrepareInputs, List.mem_map, List.mem_range] at he
  obtain ⟨i, _, rfl⟩ := he
  exact ⟨i, rfl⟩

/-- Count of mode-selection events in a successful `DoExecute` trace. -/
theorem DoExecute_countP_select (a : AppInputs) (b : List KeyBundle)
    (sm : SavedModel) (dict : List (String × TFValue))
    (hload : a.loadModel (a.store.getString "model.dir") = .ok sm)
    (hparse : (a.store.getStringList "model.userplaceholders").mapM ExpressionToTensor
        = some dict) :
    (DoExecute a b).2.countP isSelectEvent = 1 := by
  rw [DoExecute_trace_ok a b sm dict hload hparse]
  have h1 : (PrepareInputs a.store b).2.countP isSelectEvent = 0 := by
    apply countP_eq_zero_of
    intro e he
    obtain ⟨i, rfl⟩ := prep_events_shape a.store b e he
    rfl
  have h2 : (parseLoop (a.store.getStringList "model.userplaceholders")).2.countP
      isSelectEvent = 0 := by
    apply countP_eq_zero_of
    intro e he
    have := parseLoop_events _ e he
    cases e <;> simp_all [isParseEvent, isSelectEvent]
  have h3 : ((List.range (PrepareInputs a.store b).1.length).map
      (Event.pushBundle ·)).countP isSelectEvent = 0 := by
    apply countP_eq_zero_of
    intro e he
    simp only [List.mem_map, List.mem_range] at he
    obtain ⟨i, _, rfl⟩ := he
    rfl
  have h4 : (if a.store.getInt "finetuning.disabletiling" != 1 then
        [Event.updateOutputInformation,
         Event.setupStreaming (tilesizeOf a)
           (ceilDiv (a.outW * a.outH) (tilesizeOf a * tilesizeOf a))]
      else [Event.setOutputDirect]).countP isSelectEvent = 0 := by
    apply countP_eq_zero_of
    intro e he
    split at he <;> simp only [List.mem_cons, List.not_mem_nil, or_false] at he
    · rcases he with rfl | rfl <;> rfl
    · subst he; rfl
  simp only [List.countP_cons, List.countP_append, h1, h2, h3, h4]
  rfl

/-- Count of dictionary-installation events in a successful `DoExecute`
trace. -/
theorem DoExecute_countP_install (a : AppInputs) (b : List KeyBundle)
    (sm : SavedModel) (dict : List (String × TFValue))
    (hload : a.loadModel (a.store.getString "model.dir") = .ok sm)
    (hparse : (a.store.getStringList "model.userplaceholders").mapM ExpressionToTensor
        = some dict) :
    (DoExecute a b).2.countP (· == Event.installUserPlaceholders) = 1 := by
  rw [DoExecute_trace_ok a b sm dict hload hparse]
  have h1 : (PrepareInputs a.store b).2.countP (· == Event.installUserPlaceholders)
      = 0 := by
    apply countP_eq_zero_of
    intro e he
    obtain ⟨i, rfl⟩ := prep_events_shape a.store b e he
    rfl
  have h2 : (parseLoop (a.store.getStringList "model.userplaceholders")).2.countP
      (· == Event.installUserPlaceholders) = 0 := by
    apply countP_eq_zero_of
    intro e he
    have := parseLoop_events _ e he
    cases e <;> simp_all [isParseEvent]
  have h3 : ((List.range (PrepareInputs a.store b).1.length).map
      (Event.pushBundle ·)).countP (· == Event.installUserPlaceholders) = 0 := by
    apply countP_eq_zero_of
    intro e he
    simp only [List.mem_map, List.mem_range] at he
    obtain ⟨i, _, rfl⟩ := he
    rfl
  have h4 : (if a.store.getInt "finetuning.disabletiling" != 1 then
        [Event.updateOutputInformation,
         Event.setupStreaming (tilesizeOf a)
           (ceilDiv (a.outW * a.outH) (tilesizeOf a * tilesizeOf a))]
      else [Event.setOutputDirect]).countP (· == Event.installUserPlaceholders)
      = 0 := by
    apply countP_eq_zero_of
    intro e he
    split at he <;> simp only [List.mem_cons, List.not_mem_nil, or_false] at he
    · rcases he with rfl | rfl <;> rfl
    · subst he; rfl
  simp only [List.countP_cons, List.countP_append, h1, h2, h3, h4]
  rfl

theorem setDisable_other (st : ParamStore) (v : Int) (k : String)
    (h : k ≠ "finetuning.disabletiling") : (setDisable st v).getInt k = st.getInt k := by
  simp [setDisable, h]

theorem PrepareInputs_setDisable (st : ParamStore) (v : Int) (c : Int) :
    (PrepareInputs (setDisable st v) (DoInit c).1.bundles).1 =
      (PrepareInputs st (DoInit c).1.bundles).1 := by
  unfold PrepareInputs
  simp only
  apply List.map_congr_left
  intro kb hkb
  rw [DoInit_bundles] at hkb
  simp only [List.mem_map, List.mem_range] at hkb
  obtain ⟨j, _, rfl⟩ := hkb
  have hx : sourceKey (j + 1) "fovx" ≠ "finetuning.disabletiling" :=
    sourceKey_ne _ _ _ (by decide)
  have hy : sourceKey (j + 1) "fovy" ≠ "finetuning.disabletiling" :=
    sourceKey_ne _ _ _ (by decide)
  simp [mkKeyBundle, setDisable, hx, hy]

theorem mkCfg_setDisable (a : AppInputs) (v : Int) (sm : SavedModel)
    (dict : List (String × TFValue)) (c : Int) :
    mkCfg { a with store := setDisable a.store v } sm dict (DoInit c).1.bundles =
      mkCfg a sm dict (DoInit c).1.bundles := by
  unfold mkCfg
  have h1 : ("model.fullyconv" : String) ≠ "finetuning.disabletiling" := by decide
  have h2 : ("output.foex" : String) ≠ "finetuning.disabletiling" := by decide
  have h3 : ("output.foey" : String) ≠ "finetuning.disabletiling" := by decide
  have h4 := PrepareInputs_setDisable a.store v c
  simp [setDisable, h1, h2, h3]
  simpa [setDisable] using h4

/-- Exhaustive shape of the events of a successful `DoExecute` trace. -/
theorem DoExecute_trace_shape (a : AppInputs) (b : List KeyBundle)
    (sm : SavedModel) (dict : List (String × TFValue))
    (hload : a.loadModel (a.store.getString "model.dir") = .ok sm)
    (hparse : (a.store.getStringList "model.userplaceholders").mapM ExpressionToTensor
        = some dict) :
    ∀ e ∈ (DoExecute a b).2,
      e = .loadModel (a.store.getString "model.dir") ∨ (∃ i, e = .prepareInput i) ∨
      e = .configureFilter ∨ (∃ ex, e = .parseExpression ex) ∨
      e = .installUserPlaceholders ∨ (∃ i, e = .pushBundle i) ∨
      (∃ fc, e = .selectMode fc) ∨ (∃ x y, e = .setOutputFOE x y) ∨
      (a.store.getInt "finetuning.disabletiling" ≠ 1 ∧
        (e = .updateOutputInformation ∨
         e = .setupStreaming (tilesizeOf a)
              (ceilDiv (a.outW * a.outH) (tilesizeOf a * tilesizeOf a)))) ∨
      (a.store.getInt "finetuning.disabletiling" = 1 ∧ e = .setOutputDirect) := by
  intro e he
  rw [DoExecute_trace_ok a b sm dict hload hparse] at he
  rcases List.mem_cons.mp he with rfl | he
  · exact Or.inl rfl
  rcases List.mem_append.mp he with he | he
  · obtain ⟨i, rfl⟩ := prep_events_shape a.store b e he
    exact Or.inr (Or.inl ⟨i, rfl⟩)
  rcases List.mem_append.mp he with he | he
  · simp only [List.mem_singleton] at he
    subst he
    exact Or.inr (Or.inr (Or.inl rfl))
  rcases List.mem_append.mp he with he | he
  · have := parseLoop_events _ e he
    cases e <;> simp_all [isParseEvent]
  rcases List.mem_append.mp he with he | he
  · simp only [List.mem_singleton] at he
    subst he
    simp
  rcases List.mem_append.mp he with he | he
  · simp only [List.mem_map, List.mem_range] at he
    obtain ⟨i, _, rfl⟩ := he
    simp
  rcases List.mem_append.mp he with he | he
  · rcases List.mem_cons.mp he with rfl | he
    · simp
    simp only [List.mem_singleton] at he
    subst he
    simp
  · revert he
    split
    · intro he
      simp only [List.mem_cons, List.not_mem_nil, or_false] at he
      have hd : a.store.getInt "finetuning.disabletiling" ≠ 1 := by
        simp_all [bne_iff_ne]
      rcases he with rfl | rfl
      · exact Or.inr (Or.inr (Or.inr (Or.inr (Or.inr (Or.inr (Or.inr (Or.inr
          (Or.inl ⟨hd, Or.inl rfl⟩))))))))
      · exact Or.inr (Or.inr (Or.inr (Or.inr (Or.inr (Or.inr (Or.inr (Or.inr
          (Or.inl ⟨hd, Or.inr rfl⟩))))))))
    · intro he
      simp only [List.mem_cons, List.not_mem_nil, or_false] at he
      subst he
      have hd : a.store.getInt "finetuning.disabletiling" = 1 := by
        simp_all [bne_iff_ne]
      exact Or.inr (Or.inr (Or.inr (Or.inr (Or.inr (Or.inr (Or.inr (Or.inr
        (Or.inr ⟨hd, rfl⟩))))))))

/-- C3: when `finetuning.disabletiling` is set to true (value 1), the driver
bypasses tiling entirely: the chosen pipeline is direct, no streaming setup
occurs in the run trace, the output sink receives the inference filter's
output directly, and the whole output region is computed in a single
`computeTile` call. -/
theorem c3_disable_tiling_direct (a : AppInputs) (b : List KeyBundle)
    (sm : SavedModel) (dict : List (String × TFValue))
    (hload : a.loadModel (a.store.getString "model.dir") = .ok sm)
    (hparse : (a.store.getStringList "model.userplaceholders").mapM ExpressionToTensor
        = some dict)
    (hdis : a.store.getInt "finetuning.disabletiling" = 1) :
    (DoExecute a b).1 = .ok { cfg := mkCfg a sm dict b, pipeline := .direct } ∧
    (runApp a b).1 = some (computeTileBuf a.execute (mkCfg a sm dict b) (fullRegion a)) ∧
    (runApp a b).2.filter isTileEvent = [tileEvent (fullRegion a)] ∧
    (∀ ts nb, Event.setupStreaming ts nb ∉ (runApp a b).2) := by
  have hok := DoExecute_ok a b sm dict hload hparse
  rw [hdis] at hok
  simp only [bne_self_eq_false, Bool.false_eq_true, if_false] at hok
  have hrun := runApp_direct a b sm dict hload hparse hdis
  refine ⟨hok, by rw [hrun], ?_, ?_⟩
  · rw [hrun]
    simp only [List.filter_append]
    have h1 : (DoExecute a b).2.filter isTileEvent = [] := by
      rw [List.filter_eq_nil_iff]
      intro e he
      simp [(DoExecute_trace_basic a b e he).1]
    rw [h1]
    rfl
  · intro ts nb hmem
    rw [hrun] at hmem
    simp only [List.mem_append, List.mem_singleton] at hmem
    rcases hmem with hmem | hmem
    · have hs := DoExecute_trace_shape a b sm dict hload hparse _ hmem
      rcases hs with h|⟨i,h⟩|h|⟨ex,h⟩|h|⟨i,h⟩|⟨fc,h⟩|⟨x,y,h⟩|⟨hc,h|h⟩|⟨hc,h⟩ <;>
        first
        | exact hc hdis
        | exact absurd h (by simp)
    · exact absurd hmem (by simp [tileEvent])

theorem runApp_trace_mem (a : AppInputs) (b : List KeyBundle) (e : Event)
    (he : e ∈ (runApp a b).2) :
    e ∈ (DoExecute a b).2 ∨ isTileEvent e = true := by
  cases hd : (DoExecute a b).1 with
  | error err =>
    have hr : runApp a b = (none, (DoExecute a b).2) := by
      simp [runApp, hd]
    rw [hr] at he
    exact Or.inl he
  | ok s =>
    rw [runApp_ok_trace a b s hd] at he
    rcases List.mem_append.mp he with he | he
    · exact Or.inl he
    · exact Or.inr (tile_chunk_isTile a s e he)

/-- C9: model loading is the first action of execution - the first event of
every run trace is the model-load call, so it happens before input sources
are prepared, before the filter is configured and before any tile is
computed; and when loading fails the run aborts with no tile processed and
no output produced. -/
theorem c9_load_first (a : AppInputs) (b : List KeyBundle) :
    (runApp a b).2.head? = some (.loadModel (a.store.getString "model.dir")) ∧
    (∀ err, a.loadModel (a.store.getString "model.dir") = .error err →
      (runApp a b).1 = none ∧
      (runApp a b).2 = [.loadModel (a.store.getString "model.dir")]) := by
  constructor
  · have hh := DoExecute_head a b
    cases hd : (DoExecute a b).1 with
    | error err =>
      have hr : runApp a b = (none, (DoExecute a b).2) := by
        simp [runApp, hd]
      rw [hr]
      exact hh
    | ok s =>
      rw [runApp_ok_trace a b s hd]
      cases hl2 : (DoExecute a b).2 with
      | nil => rw [hl2] at hh; exact absurd hh (by simp)
      | cons x xs =>
        rw [hl2] at hh
        simp only [List.head?_cons, Option.some.injEq] at hh
        subst hh
        rfl
  · intro err herr
    rw [runApp_load_error a b err herr]
    exact ⟨rfl, rfl⟩

/-- C9 witness: a run whose model loading fails produces no raster and its
whole trace is the single failed load call. -/
theorem c9_load_first_witness :
    (runApp appWFail bundlesW).1 = none ∧
    (runApp appWFail bundlesW).2 = [.loadModel "/tmp/model"] :=
  (c9_load_first appWFail bundlesW).2 "model directory missing" rfl

/-- C6 counterexample: with external count 2, the first initialization event
is the construction of the first source parameter group - before any read of
the external count - and the count is read twice during `DoInit`, not once. -/
theorem c6_counterexample :
    (DoInit 2).2.head? = some (Event.addSourceGroup 1) ∧
    Event.addSourceGroup 1 ≠ Event.readEnvCount ∧
    (DoInit 2).2.count Event.readEnvCount = 2 := by decide

/-- C6 amended: the number of input sources is fixed at
configuration-initialization time as max(1, external count), hence at least
1 regardless of that count; the external count is read only by the `DoInit`
loop conditions (max(1, count) times, starting after the first source group
is constructed) and is never read again during `DoExecute` or tile
processing. -/
theorem c6_sources_fixed (c : Int) (a : AppInputs) (b : List KeyBundle) :
    (DoInit c).1.bundles.length = numSources c ∧
    1 ≤ numSources c ∧
    (DoInit c).2.count Event.readEnvCount = numSources c ∧
    (∀ e ∈ (runApp a b).2, e ≠ Event.readEnvCount) := by
  refine ⟨DoInit_numBundles c, by unfold numSources; omega, DoInit_readCount c, ?_⟩
  intro e he
  rcases runApp_trace_mem a b e he with hd | ht
  · exact (DoExecute_trace_basic a b e hd).2
  · cases e <;> simp_all [isTileEvent]

/-- C6 witness: the amended statement evaluated at count 2 on the concrete
run. -/
theorem c6_sources_fixed_witness :
    (DoInit 2).1.bundles.length = numSources 2 ∧
    (DoInit 2).2.count Event.readEnvCount = numSources 2 ∧
    (Event.readEnvCount ∈ (runApp appW bundlesW).2 → False) :=
  ⟨(c6_sources_fixed 2 appW bundlesW).1,
   (c6_sources_fixed 2 appW bundlesW).2.2.1,
   fun h => (c6_sources_fixed 2 appW bundlesW).2.2.2 Event.readEnvCount h rfl⟩

/-- C7: the declared configuration surface enforces exactly the specified
numeric defaults and lower bounds: every source's fovx and fovy are Int
parameters with minimum 1 (and every declared Int parameter has minimum 1);
`output.spcscale` is the unique Float parameter, with default 1.0;
`output.foex` and `output.foey` have default 1 and minimum 1; and
`finetuning.tilesize` has default 16 and minimum 1. -/
theorem c7_parameter_surface (c : Int) :
    (∀ i, 1 ≤ i → i ≤ numSources c →
      (∃ p ∈ (DoInit c).1.params,
        p.key = sourceKey i "fovx" ∧ p.ptype = .Int ∧ p.minInt = some 1) ∧
      (∃ p ∈ (DoInit c).1.params,
        p.key = sourceKey i "fovy" ∧ p.ptype = .Int ∧ p.minInt = some 1)) ∧
    (∀ p ∈ (DoInit c).1.params, p.ptype = .Int → p.minInt = some 1) ∧
    (∃ p ∈ (DoInit c).1.params,
      p.key = "output.spcscale" ∧ p.ptype = .Float ∧ p.defaultFloat = some 1) ∧
    (∀ p ∈ (DoInit c).1.params, p.ptype = .Float →
      p.key = "output.spcscale" ∧ p.defaultFloat = some 1) ∧
    (∀ p ∈ (DoInit c).1.params, p.key = "output.foex" →
      p.ptype = .Int ∧ p.defaultInt = some 1 ∧ p.minInt = some 1) ∧
    (∀ p ∈ (DoInit c).1.params, p.key = "output.foey" →
      p.ptype = .Int ∧ p.defaultInt = some 1 ∧ p.minInt = some 1) ∧
    (∃ p ∈ (DoInit c).1.params,
      p.key = "finetuning.tilesize" ∧ p.defaultInt = some 16 ∧ p.minInt = some 1) ∧
    (∀ p ∈ (DoInit c).1.params, p.key = "finetuning.tilesize" →
      p.ptype = .Int ∧ p.defaultInt = some 16 ∧ p.minInt = some 1) := by
  have hparams := DoInit_params c
  have hsrc : ∀ i, 1 ≤ i → i ≤ numSources c →
      ∀ q ∈ sourceGroupParams i, q ∈ (DoInit c).1.params := by
    intro i h1 h2 q hq
    rw [hparams]
    apply List.mem_append_left
    apply List.mem_flatMap.mpr
    refine ⟨i - 1, List.mem_range.mpr (by omega), ?_⟩
    have hi : i - 1 + 1 = i := by omega
    rw [hi]
    exact hq
  have hkeyhead : ∀ p ∈ (DoInit c).1.params,
      ∀ t : String, t.data.head? ≠ some 's' → p.key = t → p ∈ fixedParams := by
    intro p hp t ht hk
    rcases DoInit_param_cases c p hp with ⟨n, hn⟩ | hf
    · have hh := sourceGroupParams_key_head n p hn
      rw [hk] at hh
      exact absurd hh ht
    · exact hf
  refine ⟨?_, ?_, ?_, ?_, ?_, ?_, ?_, ?_⟩
  · intro i h1 h2
    constructor
    · exact ⟨{ ptype := .Int, key := sourceKey i "fovx"
               desc := "Field of view width for source #" ++ toString i
               minInt := some 1 },
             hsrc i h1 h2 _ (by simp [sourceGroupParams]), rfl, rfl, rfl⟩
    · exact ⟨{ ptype := .Int, key := sourceKey i "fovy"
               desc := "Field of view height for source #" ++ toString i
               minInt := some 1 },
             hsrc i h1 h2 _ (by simp [sourceGroupParams]), rfl, rfl, rfl⟩
  · intro p hp hi
    rcases DoInit_param_cases c p hp with ⟨n, hn⟩ | hf
    · exact sourceGroupParams_int_min n p hn hi
    · exact fixedParams_int_min p hf hi
  · refine ⟨{ ptype := .Float, key := "output.spcscale"
              desc := "The output spacing scale", defaultFloat := some 1 },
            ?_, rfl, rfl, rfl⟩
    rw [hparams]
    exact List.mem_append_right _ (by decide)
  · intro p hp hf
    rcases DoInit_param_cases c p hp with ⟨n, hn⟩ | hfx
    · exact absurd hf (sourceGroupParams_not_float n p hn)
    · exact fixedParams_float_unique p hfx hf
  · intro p hp hk
    exact fixedParams_foex p (hkeyhead p hp _ (by decide) hk) hk
  · intro p hp hk
    exact fixedParams_foey p (hkeyhead p hp _ (by decide) hk) hk
  · refine ⟨{ ptype := .Int, key := "finetuning.tilesize"
              desc := "Tile width used to stream the filter output"
              minInt := some 1, defaultInt := some 16 },
            ?_, rfl, rfl, rfl⟩
    rw [hparams]
    exact List.mem_append_right _ (by decide)
  · intro p hp hk
    exact fixedParams_tilesize p (hkeyhead p hp _ (by decide) hk) hk

/-- C7 witness: the surface facts instantiated at count 2 and source 1. -/
theorem c7_parameter_surface_witness :
    (∃ p ∈ (DoInit 2).1.params,
      p.key = sourceKey 1 "fovx" ∧ p.ptype = .Int ∧ p.minInt = some 1) ∧
    (∃ p ∈ (DoInit 2).1.params,
      p.key = "finetuning.tilesize" ∧ p.defaultInt = some 16 ∧ p.minInt = some 1) :=
  ⟨((c7_parameter_surface 2).1 1 (by decide) (by decide)).1,
   (c7_parameter_surface 2).2.2.2.2.2.2.1⟩

/-- C3 witness: the direct pipeline and the absence of streaming setup on
the concrete run with tiling disabled. -/
theorem c3_disable_tiling_direct_witness :
    (DoExecute appWDisable bundlesW).1 =
      .ok { cfg := mkCfg appWDisable { graph := 1, session := 2 } dictW bundlesW,
            pipeline := .direct } ∧
    Event.setupStreaming 2 4 ∉ (runApp appWDisable bundlesW).2 :=
  ⟨(c3_disable_tiling_direct appWDisable bundlesW { graph := 1, session := 2 }
      dictW rfl (by decide) (by decide)).1,
   (c3_disable_tiling_direct appWDisable bundlesW { graph := 1, session := 2 }
      dictW rfl (by decide) (by decide)).2.2.2 2 4⟩

/-- C2 counterexample: on a 4x4 output with tile size hint 3, the
application requests ceil(16/9) = 2 stream divisions - which is the smallest
count n with n*3^2 >= 16 - but the splitter produces 4 tiles, so the number
of tiles produced is not that smallest count. -/
theorem c2_tile_count_counterexample :
    (DoExecute appW3 bundlesW).1 =
      .ok { cfg := mkCfg appW3 { graph := 1, session := 2 } dictW bundlesW,
            pipeline := .streamed 3 (ceilDiv (4 * 4) (3 * 3)) } ∧
    ceilDiv (4 * 4) (3 * 3) = 2 ∧
    ¬ (4 * 4 ≤ 0 * (3 * 3)) ∧
    ¬ (4 * 4 ≤ 1 * (3 * 3)) ∧
    (4 * 4 ≤ 2 * (3 * 3)) ∧
    (splitRegion appW3.outW appW3.outH 3).length = 4 ∧
    (splitRegion appW3.outW appW3.outH 3).length ≠ ceilDiv (4 * 4) (3 * 3) := by
  refine ⟨?_, by decide, by decide, by decide, by decide, by decide, by decide⟩
  rw [DoExecute_ok appW3 bundlesW { graph := 1, session := 2 } dictW rfl (by decide)]
  rfl

/-- C2 amended: with tiling enabled and tile size hint t >= 1, every
produced tile's pixel area is at most t^2; the number of tiles produced is
ceil(W/t) * ceil(H/t); the application requests ceil(W*H/t^2) stream
divisions, which is a lower bound on - but not always equal to - the number
of tiles produced. -/
theorem c2_tile_count (a : AppInputs) (b : List KeyBundle) (sm : SavedModel)
    (dict : List (String × TFValue))
    (hload : a.loadModel (a.store.getString "model.dir") = .ok sm)
    (hparse : (a.store.getStringList "model.userplaceholders").mapM ExpressionToTensor
        = some dict)
    (hdis : a.store.getInt "finetuning.disabletiling" ≠ 1)
    (ht : 1 ≤ a.store.getInt "finetuning.tilesize") :
    (DoExecute a b).1 = .ok { cfg := mkCfg a sm dict b,
                              pipeline := .streamed (tilesizeOf a)
                                (ceilDiv (a.outW * a.outH)
                                  (tilesizeOf a * tilesizeOf a)) } ∧
    (runApp a b).2 = (DoExecute a b).2 ++
      (splitRegion a.outW a.outH (tilesizeOf a)).map tileEvent ∧
    (∀ r ∈ splitRegion a.outW a.outH (tilesizeOf a),
      r.area ≤ tilesizeOf a * tilesizeOf a) ∧
    (splitRegion a.outW a.outH (tilesizeOf a)).length
      = ceilDiv a.outW (tilesizeOf a) * ceilDiv a.outH (tilesizeOf a) ∧
    ceilDiv (a.outW * a.outH) (tilesizeOf a * tilesizeOf a)
      ≤ (splitRegion a.outW a.outH (tilesizeOf a)).length := by
  have ht1 : 1 ≤ tilesizeOf a := by unfold tilesizeOf; omega
  have hok := DoExecute_ok a b sm dict hload hparse
  have hb : (a.store.getInt "finetuning.disabletiling" != 1) = true := by
    simpa using hdis
  rw [hb] at hok
  simp only [if_true] at hok
  refine ⟨hok, ?_, fun r hr => splitRegion_area _ _ _ r hr,
    splitRegion_length _ _ _, ceilDiv_pixels_le_tiles _ _ _ ht1⟩
  rw [runApp_streamed a b sm dict hload hparse hdis]

/-- C2 witness: the amended statement evaluated on the concrete 4x4 run
with tile size 3. -/
theorem c2_tile_count_witness :
    (splitRegion appW3.outW appW3.outH (tilesizeOf appW3)).length
      = ceilDiv appW3.outW (tilesizeOf appW3) * ceilDiv appW3.outH (tilesizeOf appW3) ∧
    ceilDiv (appW3.outW * appW3.outH) (tilesizeOf appW3 * tilesizeOf appW3)
      ≤ (splitRegion appW3.outW appW3.outH (tilesizeOf appW3)).length :=
  ⟨(c2_tile_count appW3 bundlesW { graph := 1, session := 2 } dictW rfl (by decide)
      (by decide) (by decide)).2.2.2.1,
   (c2_tile_count appW3 bundlesW { graph := 1, session := 2 } dictW rfl (by decide)
      (by decide) (by decide)).2.2.2.2⟩

/-- C10: for a run whose bundles come from `DoInit` with external count `c`,
the filter receives exactly `numSources c` input bundles, in the declaration
order of the source groups, and the i-th pushed bundle carries the
placeholder name, patch size and image list read from the keys of group
source(i+1) - no bundle mixes values from different groups. -/
theorem c10_bundles_in_order (c : Int) (a : AppInputs) (s : RunSetup)
    (hok : (DoExecute a (DoInit c).1.bundles).1 = .ok s) :
    s.cfg.inputBundles.length = numSources c ∧
    ∀ i, i < numSources c →
      s.cfg.inputBundles[i]? = some
        { placeholder := a.store.getString (sourceKey (i + 1) "placeholder")
          patchSizeX := (a.store.getInt (sourceKey (i + 1) "fovx")).toNat
          patchSizeY := (a.store.getInt (sourceKey (i + 1) "fovy")).toNat
          images := a.store.getImageList (sourceKey (i + 1) "il") } := by
  obtain ⟨hin, -⟩ := DoExecute_ok_inv a _ s hok
  have hb := DoInit_bundles c
  constructor
  · rw [hin]
    unfold PrepareInputs
    simp [hb]
  · intro i hi
    rw [hin]
    unfold PrepareInputs
    simp only
    rw [hb, List.getElem?_map, List.getElem?_map, List.getElem?_range hi]
    simp [mkKeyBundle]

/-- C10 witness: the single bundle of the concrete one-source run carries
exactly the source1 group values. -/
theorem c10_bundles_in_order_witness :
    ({ cfg := mkCfg appW { graph := 1, session := 2 } dictW bundlesW,
       pipeline := .streamed 2 4 } : RunSetup).cfg.inputBundles[0]?
      = some { placeholder := "x1", patchSizeX := 16, patchSizeY := 16
               images := [7] } := by
  have h := (c10_bundles_in_order 1 appW
      { cfg := mkCfg appW { graph := 1, session := 2 } dictW bundlesW,
        pipeline := .streamed 2 4 }
      (by rw [show (DoInit 1).1.bundles = bundlesW from rfl,
              DoExecute_ok appW bundlesW { graph := 1, session := 2 } dictW rfl
                (by decide)]
          rfl)).2 0 (by decide)
  rw [h]
  decide

/-- C4: the output raster's band order matches the declared order of
`output.names`: the name list is forwarded to the filter unchanged and in
order, and at every pixel the output bands are the channels of each named
tensor concatenated contiguously in exactly that order - the k-th name's
channels occupy the slice starting at the total channel count of the
preceding names. -/
theorem c4_band_order (a : AppInputs) (b : List KeyBundle) (s : RunSetup)
    (hok : (DoExecute a b).1 = .ok s) :
    s.cfg.outputTensorsNames = a.store.getStringList "output.names" ∧
    (∀ p, pixelValue a.execute s.cfg p =
      s.cfg.outputTensorsNames.flatMap (fun nm =>
        a.execute s.cfg.session (inputBindingsAt s.cfg p) s.cfg.userPlaceholders nm)) ∧
    (∀ p, (pixelValue a.execute s.cfg p).length =
      (s.cfg.outputTensorsNames.map (fun nm =>
        (a.execute s.cfg.session (inputBindingsAt s.cfg p)
          s.cfg.userPlaceholders nm).length)).sum) ∧
    (∀ p k, ∀ hk : k < s.cfg.outputTensorsNames.length,
      ((pixelValue a.execute s.cfg p).drop
          (((s.cfg.outputTensorsNames.take k).map (fun nm =>
            (a.execute s.cfg.session (inputBindingsAt s.cfg p)
              s.cfg.userPlaceholders nm).length)).sum)).take
          (a.execute s.cfg.session (inputBindingsAt s.cfg p) s.cfg.userPlaceholders
            (s.cfg.outputTensorsNames.get ⟨k, hk⟩)).length
        = a.execute s.cfg.session (inputBindingsAt s.cfg p) s.cfg.userPlaceholders
            (s.cfg.outputTensorsNames.get ⟨k, hk⟩)) := by
  obtain ⟨-, hnames, -⟩ := DoExecute_ok_inv a b s hok
  refine ⟨hnames, fun p => rfl, fun p => ?_, fun p k hk => ?_⟩
  · rw [pixelValue, List.length_flatMap]
    rfl
  · exact flatMap_slice s.cfg.outputTensorsNames
      (fun nm => a.execute s.cfg.session (inputBindingsAt s.cfg p)
        s.cfg.userPlaceholders nm) k hk

/-- C4 witness: the concrete run forwards the two output names unchanged. -/
theorem c4_band_order_witness :
    ({ cfg := mkCfg appW { graph := 1, session := 2 } dictW bundlesW,
       pipeline := .streamed 2 4 } : RunSetup).cfg.outputTensorsNames
      = appW.store.getStringList "output.names" :=
  (c4_band_order appW bundlesW
    { cfg := mkCfg appW { graph := 1, session := 2 } dictW bundlesW,
      pipeline := .streamed 2 4 }
    (by rw [DoExecute_ok appW bundlesW { graph := 1, session := 2 } dictW rfl
              (by decide)]
        rfl)).1

/-- C5: user placeholders are parsed exactly once at run start: when the
expression list parses to a dictionary, that dictionary is installed on the
filter unchanged, it is installed exactly once, the bindings passed to the
model execution at every pixel of every tile are exactly that dictionary,
and every parse event precedes every tile computation in the run trace. -/
theorem c5_placeholder_constancy (a : AppInputs) (b : List KeyBundle)
    (sm : SavedModel) (dict : List (String × TFValue))
    (hload : a.loadModel (a.store.getString "model.dir") = .ok sm)
    (hparse : (a.store.getStringList "model.userplaceholders").mapM ExpressionToTensor
        = some dict) :
    (∀ s, (DoExecute a b).1 = .ok s → s.cfg.userPlaceholders = dict ∧
      ∀ p, pixelValue a.execute s.cfg p =
        s.cfg.outputTensorsNames.flatMap (fun nm =>
          a.execute s.cfg.session (inputBindingsAt s.cfg p) dict nm)) ∧
    (runApp a b).2.countP (· == Event.installUserPlaceholders) = 1 ∧
    EventsPrecede isParseEvent isTileEvent (runApp a b).2 := by
  have hok := DoExecute_ok a b sm dict hload hparse
  refine ⟨?_, ?_, ?_⟩
  · intro s hs
    obtain ⟨-, -, -, -, -, d2, hm2, hup⟩ := DoExecute_ok_inv a b s hs
    rw [hparse] at hm2
    have hd2 : d2 = dict := by
      exact (Option.some.injEq _ _).mp hm2.symm
    subst hd2
    exact ⟨hup, fun p => by simp [pixelValue, hup]⟩
  · rw [runApp_ok_trace a b _ hok, List.countP_append,
      DoExecute_countP_install a b sm dict hload hparse,
      tileChunk_countP_zero a _ _ (fun x0 y0 sx sy => rfl)]
  · refine ⟨(DoExecute a b).2, _, runApp_ok_trace a b _ hok, ?_, ?_⟩
    · intro e he
      exact (DoExecute_trace_basic a b e he).1
    · intro e he
      have := tile_chunk_isTile a _ e he
      cases e <;> simp_all [isTileEvent, isParseEvent]

/-- C5 witness: the concrete run installs exactly the parsed dictionary and
installs it once. -/
theorem c5_placeholder_constancy_witness :
    (mkCfg appW { graph := 1, session := 2 } dictW bundlesW).userPlaceholders = dictW ∧
    (runApp appW bundlesW).2.countP (· == Event.installUserPlaceholders) = 1 :=
  ⟨((c5_placeholder_constancy appW bundlesW { graph := 1, session := 2 } dictW rfl
      (by decide)).1
      { cfg := mkCfg appW { graph := 1, session := 2 } dictW bundlesW,
        pipeline := .streamed 2 4 }
      (by rw [DoExecute_ok appW bundlesW { graph := 1, session := 2 } dictW rfl
                (by decide)]
          rfl)).1,
   (c5_placeholder_constancy appW bundlesW { graph := 1, session := 2 } dictW rfl
      (by decide)).2.1⟩

/-- C8: the execution mode is FullyConvolutional exactly when the
`model.fullyconv` parameter is 1 (true), otherwise PatchWise; the mode is
selected exactly once, before any tile is processed, and never re-evaluated
inside the per-tile loop. -/
theorem c8_mode_selection (a : AppInputs) (b : List KeyBundle)
    (sm : SavedModel) (dict : List (String × TFValue))
    (hload : a.loadModel (a.store.getString "model.dir") = .ok sm)
    (hparse : (a.store.getStringList "model.userplaceholders").mapM ExpressionToTensor
        = some dict) :
    (∀ s, (DoExecute a b).1 = .ok s →
      (s.cfg.mode = .FullyConvolutional ↔ a.store.getInt "model.fullyconv" = 1)) ∧
    (runApp a b).2.countP isSelectEvent = 1 ∧
    EventsPrecede isSelectEvent isTileEvent (runApp a b).2 := by
  have hok := DoExecute_ok a b sm dict hload hparse
  refine ⟨?_, ?_, ?_⟩
  · intro s hs
    obtain ⟨-, -, hfc, -⟩ := DoExecute_ok_inv a b s hs
    by_cases h : a.store.getInt "model.fullyconv" = 1 <;>
      simp [FilterConfig.mode, hfc, h]
  · rw [runApp_ok_trace a b _ hok, List.countP_append,
      DoExecute_countP_select a b sm dict hload hparse,
      tileChunk_countP_zero a _ isSelectEvent (fun x0 y0 sx sy => rfl)]
  · refine ⟨(DoExecute a b).2, _, runApp_ok_trace a b _ hok, ?_, ?_⟩
    · intro e he
      exact (DoExecute_trace_basic a b e he).1
    · intro e he
      have := tile_chunk_isTile a _ e he
      cases e <;> simp_all [isTileEvent, isSelectEvent]

/-- C8 witness: the concrete run (fullyconv unset) is PatchWise and selects
the mode exactly once. -/
theorem c8_mode_selection_witness :
    ((mkCfg appW { graph := 1, session := 2 } dictW bundlesW).mode
        = ExecutionMode.FullyConvolutional → (0 : Int) = 1) ∧
    (runApp appW bundlesW).2.countP isSelectEvent = 1 :=
  ⟨fun h => ((c8_mode_selection appW bundlesW { graph := 1, session := 2 } dictW rfl
      (by decide)).1
      { cfg := mkCfg appW { graph := 1, session := 2 } dictW bundlesW,
        pipeline := .streamed 2 4 }
      (by rw [DoExecute_ok appW bundlesW { graph := 1, session := 2 } dictW rfl
                (by decide)]
          rfl)).mp h,
   (c8_mode_selection appW bundlesW { graph := 1, session := 2 } dictW rfl
      (by decide)).2.1⟩

/-- C1: tiling invariance - for every valid configuration (successful model
load, successful placeholder parse, tile size at least 1), the run with
`finetuning.disabletiling` set computes the whole region in one call, the
same configuration with tiling enabled streams the same filter output
through the square-tile splitter, and the two output rasters are
byte-identical: both equal the single whole-region computeTile result. -/
theorem c1_tiling_invariance (c : Int) (a : AppInputs) (sm : SavedModel)
    (dict : List (String × TFValue))
    (hload : a.loadModel (a.store.getString "model.dir") = .ok sm)
    (hparse : (a.store.getStringList "model.userplaceholders").mapM ExpressionToTensor
        = some dict)
    (hdis : a.store.getInt "finetuning.disabletiling" = 1)
    (ht : 1 ≤ a.store.getInt "finetuning.tilesize") :
    (runApp a (DoInit c).1.bundles).1
      = some (computeTileBuf a.execute (mkCfg a sm dict (DoInit c).1.bundles)
          (fullRegion a)) ∧
    (runApp { a with store := setDisable a.store 0 } (DoInit c).1.bundles).1
      = some (computeTileBuf a.execute (mkCfg a sm dict (DoInit c).1.bundles)
          (fullRegion a)) ∧
    (runApp a (DoInit c).1.bundles).1
      = (runApp { a with store := setDisable a.store 0 } (DoInit c).1.bundles).1 := by
  have h1 : (runApp a (DoInit c).1.bundles).1
      = some (computeTileBuf a.execute (mkCfg a sm dict (DoInit c).1.bundles)
          (fullRegion a)) := by
    rw [runApp_direct a (DoInit c).1.bundles sm dict hload hparse hdis]
  have hts : ("finetuning.tilesize" : String) ≠ "finetuning.disabletiling" := by decide
  have hdis2 : ({ a with store := setDisable a.store 0 } : AppInputs).store.getInt
      "finetuning.disabletiling" ≠ 1 := by
    simp [setDisable]
  have ht2 : tilesizeOf { a with store := setDisable a.store 0 } = tilesizeOf a := by
    simp [tilesizeOf, setDisable, hts]
  have ht1 : 1 ≤ tilesizeOf a := by unfold tilesizeOf; omega
  have h2 : (runApp { a with store := setDisable a.store 0 } (DoInit c).1.bundles).1
      = some (computeTileBuf a.execute (mkCfg a sm dict (DoInit c).1.bundles)
          (fullRegion a)) := by
    rw [runApp_streamed { a with store := setDisable a.store 0 } (DoInit c).1.bundles
        sm dict hload hparse hdis2]
    rw [mkCfg_setDisable, ht2]
    rw [streamedRaster_eq_whole a.execute (mkCfg a sm dict (DoInit c).1.bundles)
        a.outW a.outH (tilesizeOf a) ht1]
    rfl
  exact ⟨h1, h2, h1.trans h2.symm⟩

/-- C1 witness: byte-identical rasters between the disabled-tiling run and
the same configuration with tiling enabled, on the concrete inputs. -/
theorem c1_tiling_invariance_witness :
    (runApp appWDisable bundlesW).1
      = (runApp { appWDisable with store := setDisable appWDisable.store 0 }
          bundlesW).1 :=
  (c1_tiling_invariance 1 appWDisable { graph := 1, session := 2 } dictW rfl
    (by decide) (by decide) (by decide)).2.2

end OTBTF
